import Mathlib

/-!
Verification of the expense-tracker core (`tracker/logic.py`, `tracker/models.py`)
against its natural-language specification.

The Python code is shallowly embedded: dates are a `Date` structure mirroring
`datetime.date` (proleptic Gregorian calendar), money amounts are rationals,
the mutable module-level lists of `models.py` become an explicit `Store`
value, and the computation of each logic function is translated statement by
statement.  A Python expression that raises (attribute access on `None`,
access to a missing dataclass field) is modeled with `Option`.
-/

namespace Tracker

/-- A calendar date (year, month, day), mirroring `datetime.date`. -/
structure Date where
  year : Nat
  month : Nat
  day : Nat
deriving DecidableEq

/-- Gregorian leap-year rule, as implemented by `datetime` / `calendar.isleap`. -/
def isLeap (y : Nat) : Bool := y % 4 == 0 && (y % 100 != 0 || y % 400 == 0)

/-- Length of month `m` given the leap flag of its year. -/
def dimB (leap : Bool) (m : Nat) : Nat :=
  if m = 2 then (if leap then 29 else 28)
  else if m = 4 ∨ m = 6 ∨ m = 9 ∨ m = 11 then 30
  else 31

/-- Length of month `m` of year `y`. -/
def daysInMonth (y m : Nat) : Nat := dimB (isLeap y) m

/-- Days of a year lying strictly before month `m` (for `1 ≤ m ≤ 12`),
given the leap flag of the year. -/
def dbmB (leap : Bool) (m : Nat) : Nat :=
  let l : Nat := if leap then 1 else 0
  match m with
  | 1 => 0
  | 2 => 31
  | 3 => 59 + l
  | 4 => 90 + l
  | 5 => 120 + l
  | 6 => 151 + l
  | 7 => 181 + l
  | 8 => 212 + l
  | 9 => 243 + l
  | 10 => 273 + l
  | 11 => 304 + l
  | 12 => 334 + l
  | _ => 0

/-- Number of leap years in `1, …, y-1`. -/
def leapsBefore (y : Nat) : Nat := (y - 1) / 4 - (y - 1) / 100 + (y - 1) / 400

/-- Day number of a date (0 for year 1, January 1).  This is the linearization
`datetime.date.toordinal` minus one; `timedelta` subtraction of two dates is
the difference of their day numbers, and the order on `datetime.date` values
is the order of their day numbers. -/
def toOrd (d : Date) : Nat :=
  365 * (d.year - 1) + leapsBefore d.year + dbmB (isLeap d.year) d.month + (d.day - 1)

/-- A date that `datetime.date` can represent: month in range and day within
the month (year at least 1). -/
def Valid (d : Date) : Prop :=
  1 ≤ d.year ∧ 1 ≤ d.month ∧ d.month ≤ 12 ∧ 1 ≤ d.day ∧ d.day ≤ daysInMonth d.year d.month

instance (d : Date) : Decidable (Valid d) := by
  unfold Valid; infer_instance

/-- The successor date, mirroring `c_date + timedelta(days=1)`. -/
def nextDay (d : Date) : Date :=
  if d.day < daysInMonth d.year d.month then ⟨d.year, d.month, d.day + 1⟩
  else if d.month < 12 then ⟨d.year, d.month + 1, 1⟩
  else ⟨d.year + 1, 1, 1⟩

/-- Iterated successor: the date `n` days after `d`. -/
def advanceDays : Nat → Date → Date
  | 0, d => d
  | n + 1, d => advanceDays n (nextDay d)

/-- Advancing a date by a number of calendar months with month-end clamping,
as `dateutil.relativedelta(months=n)` does: the month index is shifted and the
day is clamped to the length of the resulting month. -/
def addMonthsClamp (d : Date) (months : Nat) : Date :=
  let tot : Nat := d.year * 12 + (d.month - 1) + months
  ⟨tot / 12, tot % 12 + 1, min d.day (daysInMonth (tot / 12) (tot % 12 + 1))⟩

example : addMonthsClamp ⟨2023, 1, 31⟩ 1 = ⟨2023, 2, 28⟩ := by decide
example : addMonthsClamp ⟨2023, 1, 31⟩ 2 = ⟨2023, 3, 31⟩ := by decide
example : addMonthsClamp ⟨2023, 12, 15⟩ 1 = ⟨2024, 1, 15⟩ := by decide
example : toOrd ⟨1, 1, 1⟩ = 0 := by decide
example : toOrd ⟨1, 12, 31⟩ + 1 = toOrd ⟨2, 1, 1⟩ := by decide
example : toOrd ⟨2020, 2, 29⟩ + 1 = toOrd ⟨2020, 3, 1⟩ := by decide

/-! ### Calendar lemmas -/

theorem dbmB_succ (b : Bool) (m : Nat) (h1 : 1 ≤ m) (h2 : m ≤ 11) :
    dbmB b (m + 1) = dbmB b m + dimB b m := by
  have key : ∀ b : Bool, ∀ m, m < 12 → 1 ≤ m → dbmB b (m + 1) = dbmB b m + dimB b m := by
    decide
  exact key b m (by omega) h1

theorem dbmB_dimB_le (b : Bool) (m : Nat) (h1 : 1 ≤ m) (h2 : m ≤ 12) :
    dbmB b m + dimB b m ≤ 365 + (if b then 1 else 0) := by
  have key : ∀ b : Bool, ∀ m, m < 13 → 1 ≤ m → dbmB b m + dimB b m ≤ 365 + (if b then 1 else 0) := by
    decide
  exact key b m (by omega) h1

theorem dbmB_mono (b : Bool) (m m' : Nat) (h1 : 1 ≤ m) (h2 : m < m') (h3 : m' ≤ 12) :
    dbmB b m + dimB b m ≤ dbmB b m' := by
  have key : ∀ b : Bool, ∀ m, m < 13 → ∀ m', m' < 13 →
      1 ≤ m → m < m' → dbmB b m + dimB b m ≤ dbmB b m' := by
    decide
  exact key b m (by omega) m' (by omega) h1 h2

theorem dimB_pos (b : Bool) (m : Nat) (h1 : 1 ≤ m) (h2 : m ≤ 12) : 1 ≤ dimB b m := by
  have key : ∀ b : Bool, ∀ m, m < 13 → 1 ≤ m → 1 ≤ dimB b m := by decide
  exact key b m (by omega) h1

theorem dbmB_one (b : Bool) : dbmB b 1 = 0 := by cases b <;> rfl

theorem dbmB_twelve (b : Bool) : dbmB b 12 + dimB b 12 = 365 + (if b then 1 else 0) := by
  cases b <;> rfl

theorem isLeap_iff (y : Nat) :
    isLeap y = true ↔ (y % 4 = 0 ∧ (y % 100 ≠ 0 ∨ y % 400 = 0)) := by
  simp [isLeap, Bool.and_eq_true, Bool.or_eq_true]

theorem leapsBefore_succ (y : Nat) (hy : 1 ≤ y) :
    leapsBefore (y + 1) = leapsBefore y + (if isLeap y then 1 else 0) := by
  obtain ⟨n, rfl⟩ : ∃ n, y = n + 1 := ⟨y - 1, by omega⟩
  unfold leapsBefore
  simp only [Nat.add_sub_cancel]
  have d4 := Nat.succ_div n 4
  have d100 := Nat.succ_div n 100
  have d400 := Nat.succ_div n 400
  have m4 : 4 ∣ (n + 1) ↔ (n + 1) % 4 = 0 := Nat.dvd_iff_mod_eq_zero
  have m100 : 100 ∣ (n + 1) ↔ (n + 1) % 100 = 0 := Nat.dvd_iff_mod_eq_zero
  have m400 : 400 ∣ (n + 1) ↔ (n + 1) % 400 = 0 := Nat.dvd_iff_mod_eq_zero
  simp only [m4] at d4
  simp only [m100] at d100
  simp only [m400] at d400
  have hL := isLeap_iff (n + 1)
  split at d4 <;> split at d100 <;> split at d400 <;> split <;>
    rename_i ha hb hc hd <;> rw [hL] at hd <;> omega

/-- Start-of-year day number. -/
def yearStart (y : Nat) : Nat := 365 * (y - 1) + leapsBefore y

theorem toOrd_def (d : Date) :
    toOrd d = yearStart d.year + dbmB (isLeap d.year) d.month + (d.day - 1) := rfl

theorem yearStart_succ (y : Nat) (hy : 1 ≤ y) :
    yearStart (y + 1) = yearStart y + 365 + (if isLeap y then 1 else 0) := by
  unfold yearStart
  rw [leapsBefore_succ y hy]
  omega

theorem yearStart_le (y y' : Nat) (h : y ≤ y') (hy : 1 ≤ y) : yearStart y ≤ yearStart y' := by
  induction y' with
  | zero => exact absurd (by omega : y = 0) (by omega)
  | succ z ih =>
    by_cases hz : y ≤ z
    · have h1 : 1 ≤ z := by omega
      have h2 := yearStart_succ z h1
      have h3 := ih hz
      omega
    · have heq : y = z + 1 := by omega
      rw [heq]

theorem toOrd_nextDay (d : Date) (h : Valid d) : toOrd (nextDay d) = toOrd d + 1 := by
  obtain ⟨hy, hm1, hm2, hd1, hd2⟩ := h
  unfold daysInMonth at hd2
  unfold nextDay daysInMonth
  by_cases h1 : d.day < dimB (isLeap d.year) d.month
  · simp only [if_pos h1, toOrd_def]
    omega
  · have hday : d.day = dimB (isLeap d.year) d.month := by omega
    by_cases h2 : d.month < 12
    · simp only [if_neg h1, if_pos h2, toOrd_def]
      have := dbmB_succ (isLeap d.year) d.month hm1 (by omega)
      omega
    · have hm : d.month = 12 := by omega
      simp only [if_neg h1, if_neg h2, toOrd_def, dbmB_one]
      have h12 := dbmB_twelve (isLeap d.year)
      have hys := yearStart_succ d.year hy
      rw [hm] at hday
      rw [hm]
      omega

theorem nextDay_valid (d : Date) (h : Valid d) : Valid (nextDay d) := by
  obtain ⟨hy, hm1, hm2, hd1, hd2⟩ := h
  unfold daysInMonth at hd2
  unfold nextDay Valid daysInMonth
  by_cases h1 : d.day < dimB (isLeap d.year) d.month
  · simp only [if_pos h1]
    exact ⟨hy, hm1, hm2, Nat.succ_le_succ (Nat.zero_le _), h1⟩
  · by_cases h2 : d.month < 12
    · simp only [if_neg h1, if_pos h2]
      exact ⟨hy, Nat.succ_le_succ (Nat.zero_le _), h2, le_refl 1,
        dimB_pos (isLeap d.year) (d.month + 1) (Nat.succ_le_succ (Nat.zero_le _)) h2⟩
    · simp only [if_neg h1, if_neg h2]
      exact ⟨Nat.succ_le_succ (Nat.zero_le _), le_refl 1, by omega, le_refl 1,
        dimB_pos (isLeap (d.year + 1)) 1 (le_refl 1) (by omega)⟩

theorem advanceDays_valid (n : Nat) (d : Date) (h : Valid d) : Valid (advanceDays n d) := by
  induction n generalizing d with
  | zero => exact h
  | succ k ih => exact ih (nextDay d) (nextDay_valid d h)

theorem toOrd_advanceDays (n : Nat) (d : Date) (h : Valid d) :
    toOrd (advanceDays n d) = toOrd d + n := by
  induction n generalizing d with
  | zero => rfl
  | succ k ih =>
    have : advanceDays (k + 1) d = advanceDays k (nextDay d) := rfl
    rw [this, ih (nextDay d) (nextDay_valid d h), toOrd_nextDay d h]
    omega

theorem advanceDays_succ (n : Nat) (d : Date) :
    advanceDays (n + 1) d = advanceDays n (nextDay d) := rfl

theorem advanceDays_add (a b : Nat) (d : Date) :
    advanceDays (a + b) d = advanceDays b (advanceDays a d) := by
  induction a generalizing d with
  | zero => rw [Nat.zero_add]; rfl
  | succ k ih =>
    rw [show k + 1 + b = (k + b) + 1 from by omega, advanceDays_succ (k + b) d,
        ih (nextDay d), advanceDays_succ k d]

theorem toOrd_lt_toOrd (a b : Date) (ha : Valid a) (hb : Valid b)
    (h : a.year < b.year ∨ (a.year = b.year ∧
      (a.month < b.month ∨ (a.month = b.month ∧ a.day < b.day)))) :
    toOrd a < toOrd b := by
  obtain ⟨hya, hma1, hma2, hda1, hda2⟩ := ha
  obtain ⟨hyb, hmb1, hmb2, hdb1, hdb2⟩ := hb
  unfold daysInMonth at hda2 hdb2
  rcases h with hy | ⟨hy, hm | ⟨hm, hd⟩⟩
  · have hub : toOrd a < yearStart (a.year + 1) := by
      rw [toOrd_def]
      have h1 := dbmB_dimB_le (isLeap a.year) a.month hma1 hma2
      have h2 := yearStart_succ a.year hya
      omega
    have hlb : yearStart b.year ≤ toOrd b := by rw [toOrd_def]; omega
    have hmono := yearStart_le (a.year + 1) b.year (by omega) (by omega)
    omega
  · rw [toOrd_def, toOrd_def, hy]
    have := dbmB_mono (isLeap b.year) a.month b.month hma1 hm hmb2
    rw [hy] at hda2
    omega
  · rw [toOrd_def, toOrd_def, hy, hm]
    omega

theorem toOrd_inj (a b : Date) (ha : Valid a) (hb : Valid b) (h : toOrd a = toOrd b) :
    a = b := by
  by_contra hne
  have htri : (a.year < b.year ∨ (a.year = b.year ∧
      (a.month < b.month ∨ (a.month = b.month ∧ a.day < b.day)))) ∨
      (b.year < a.year ∨ (b.year = a.year ∧
      (b.month < a.month ∨ (b.month = a.month ∧ b.day < a.day)))) := by
    cases a with
    | mk ya ma da =>
      cases b with
      | mk yb mb db =>
        simp only [Date.mk.injEq] at hne
        simp only
        omega
  rcases htri with h1 | h1
  · exact absurd h (Nat.ne_of_lt (toOrd_lt_toOrd a b ha hb h1))
  · exact absurd h.symm (Nat.ne_of_lt (toOrd_lt_toOrd b a hb ha h1))

/-- Transaction kind, from the `Literal["income", "expense"]` annotation in
`models.py`. -/
inductive TType where
  | income
  | expense
deriving DecidableEq

/-- `models.Transaction`.  The dataclass has exactly these fields — in
particular it declares no `id` field.  The `category` object reference is
represented by the referenced category's name (`BudgetCategory.name` is the
unique key per the data model). -/
structure Transaction where
  amount : ℚ
  t_type : TType
  t_date : Date
  is_rec : Bool
  rec_interval : Option String
  desc : String
  category : Option String
deriving DecidableEq

/-- `models.BudgetCategory`. -/
structure BudgetCategory where
  name : String
  monthly_limit : Option ℚ
  transactions : List Transaction
deriving DecidableEq

/-- `models.BalanceCheckpoint`. -/
structure BalanceCheckpoint where
  date : Date
  amount : ℚ
deriving DecidableEq

/-- The module-level mutable state of `models.py`: `transactions`,
`budget_categories`, `balance_history`. -/
structure Store where
  transactions : List Transaction
  budget_categories : List BudgetCategory
  balance_history : List BalanceCheckpoint
deriving DecidableEq

/-- The store with all three collections empty (initial module state). -/
def emptyStore : Store := ⟨[], [], []⟩

/-! ### `logic.py`: category and transaction CRUD (read inputs of the engines) -/

/-- `find_or_create_category` combined with the member-list append of
`add_transaction` (logic.py 67-68): the first category whose `name` matches
gets the transaction appended to its member list. -/
def appendToCat : List BudgetCategory → String → Transaction → List BudgetCategory
  | [], _, _ => []
  | c :: rest, n, tx =>
    if c.name = n then { c with transactions := c.transactions ++ [tx] } :: rest
    else c :: appendToCat rest n tx

/-- `add_transaction` (logic.py 44-68).  `if category_name:` is Python
truthiness, so an empty-string name counts as absent; `find_or_create_category`
appends a fresh category when the name is unknown; the new transaction is
appended to the store and, when categorized, to the category's member list. -/
def add_transaction (s : Store) (amount : ℚ) (t_type : TType) (t_date : Date)
    (category_name : Option String) (is_rec : Bool) (rec_interval : Option String)
    (desc : String) : Store :=
  let catOpt : Option String :=
    match category_name with
    | some n => if n = "" then none else some n
    | none => none
  match catOpt with
  | none =>
    { s with transactions :=
        s.transactions ++ [⟨amount, t_type, t_date, is_rec, rec_interval, desc, none⟩] }
  | some n =>
    let cats :=
      if s.budget_categories.any (fun c => c.name = n) then s.budget_categories
      else s.budget_categories ++ [⟨n, none, []⟩]
    let tx : Transaction := ⟨amount, t_type, t_date, is_rec, rec_interval, desc, some n⟩
    { s with transactions := s.transactions ++ [tx],
             budget_categories := appendToCat cats n tx }

/-- Attribute access `t.id`: the `Transaction` dataclass of `models.py`
declares no `id` field (and `add_transaction` sets none), so in the source
this access raises `AttributeError`.  Modeled as `none`. -/
def txId (_ : Transaction) : Option Nat := none

/-- `delete_transaction` (logic.py 71-80): scan the transaction list for a
matching `t.id`, pop it and return `True`, else return `False`.  Every loop
iteration reads `t.id` via [txId], so the scan fails on the first element. -/
def deleteScan : List Transaction → Nat → Option Bool
  | [], _ => some false
  | t :: rest, tid =>
    match txId t with
    | none => none
    | some i => if i = tid then some true else deleteScan rest tid

/-- `delete_transaction`, result only (`none` models an uncaught
`AttributeError`). -/
def delete_transaction (txs : List Transaction) (transaction_id : Nat) : Option Bool :=
  deleteScan txs transaction_id

/-! ### `logic.py`: spending aggregation engine -/

/-- The three window kinds of `set_timeframe`. -/
inductive Timeframe where
  | day
  | month
  | year
deriving DecidableEq

/-- Python `x or default` on an optional int: `None` and `0` are falsy. -/
def pyOr (o : Option Nat) (dflt : Nat) : Nat :=
  match o with
  | some v => if v = 0 then dflt else v
  | none => dflt

/-- `set_timeframe` (logic.py 107-127).  The target is a `date` for day and
month windows and a plain year number for year windows; missing pieces fall
back to today's date. -/
def set_timeframe (today : Date) (year month day : Option Nat) :
    Timeframe × (Date ⊕ Nat) :=
  match day with
  | some dd => (Timeframe.day, Sum.inl ⟨pyOr year today.year, pyOr month today.month, dd⟩)
  | none =>
    match month with
    | some mm => (Timeframe.month, Sum.inl ⟨pyOr year today.year, mm, 1⟩)
    | none =>
      match year with
      | some yy => (Timeframe.year, Sum.inr yy)
      | none => (Timeframe.day, Sum.inl today)

/-- The filter of the `check_spending` loop (logic.py 147-156), with the
control flow of the source kept intact: a day window with a matching date
falls through the `pass`, month and year windows `continue` on a mismatch,
and every remaining case — including a day window with a NON-matching date —
falls through to the accumulation. -/
def includeTx (tf : Timeframe) (target : Date ⊕ Nat) (t : Transaction) : Bool :=
  if tf = Timeframe.day ∧ Sum.inl t.t_date = target then true
  else if tf = Timeframe.month then
    match target with
    | Sum.inl td => decide (t.t_date.year = td.year ∧ t.t_date.month = td.month)
    | Sum.inr _ => false
  else if tf = Timeframe.year then
    match target with
    | Sum.inr y => decide (t.t_date.year = y)
    | Sum.inl _ => false
  else true

/-- The running `total` dict of `check_spending` and the per-category dict
values: `income`, `expense`, `net` figures. -/
structure Totals where
  income : ℚ
  expense : ℚ
  net : ℚ
deriving DecidableEq

/-- All-zero figures (dict initialization in logic.py 133-145). -/
def zeroTotals : Totals := ⟨0, 0, 0⟩

/-- `total[t.t_type] += t.amount` (logic.py 158). -/
def addType (tot : Totals) (ty : TType) (a : ℚ) : Totals :=
  match ty with
  | TType.income => { tot with income := tot.income + a }
  | TType.expense => { tot with expense := tot.expense + a }

/-- The two per-category updates of logic.py 160-161: bump the kind figure and
the signed `net` figure. -/
def catApply (tot : Totals) (ty : TType) (a : ℚ) : Totals :=
  let tot := addType tot ty a
  { tot with net := tot.net + (match ty with | TType.income => a | TType.expense => -a) }

/-- The `categories` dict: category name to figures, in store order. -/
abbrev CatMap := List (String × Totals)

/-- Update the entry of `name` in the categories dict. -/
def catUpdate (cats : CatMap) (name : String) (ty : TType) (a : ℚ) : CatMap :=
  cats.map (fun e => if e.1 = name then (e.1, catApply e.2 ty a) else e)

/-- One iteration of the `check_spending` loop body (logic.py 147-161) for an
already-accumulated state.  An included transaction first bumps the totals,
then `t.category.name` is read: when the category reference is `None` this
raises `AttributeError`, modeled by `none`; otherwise the per-category figures
are updated when the name is a key of the dict. -/
def spendingStep (tf : Timeframe) (target : Date ⊕ Nat)
    (acc : Option (Totals × CatMap)) (t : Transaction) : Option (Totals × CatMap) :=
  match acc with
  | none => none
  | some (tot, cats) =>
    if includeTx tf target t then
      let tot := addType tot t.t_type t.amount
      match t.category with
      | none => none
      | some cname =>
        if cats.any (fun e => e.1 = cname) then some (tot, catUpdate cats cname t.t_type t.amount)
        else some (tot, cats)
    else some (tot, cats)

/-- The result dict of `check_spending` (logic.py 165-170). -/
structure SpendingResult where
  timeframe : Timeframe
  target : Date ⊕ Nat
  totals : Totals
  categories : CatMap
deriving DecidableEq

/-- `check_spending` (logic.py 130-170), with `today` made explicit.
`none` models an uncaught `AttributeError` from the loop body. -/
def check_spending (s : Store) (today : Date) (day month year : Option Nat) :
    Option SpendingResult :=
  let tft := set_timeframe today year month day
  let init : Totals × CatMap :=
    (zeroTotals, s.budget_categories.map (fun c => (c.name, zeroTotals)))
  (s.transactions.foldl (spendingStep tft.1 tft.2) (some init)).map
    (fun tc =>
      { timeframe := tft.1, target := tft.2,
        totals := { tc.1 with net := tc.1.income - tc.1.expense },
        categories := tc.2 })

/-! ### `logic.py`: balance projection engine -/

/-- `round(x, 2)` of the source, on the rational model of amounts:
round to an integer number of hundredths.  (Python rounds ties on the binary
float representation; this development only ever evaluates `round2` where
the argument is a whole number of cents and every rounding convention
agrees — see `round2_isCents`.) -/
def round2 (x : ℚ) : ℚ := ((round (x * 100) : ℤ) : ℚ) / 100

/-- `update_bal` (logic.py 173-178): apply a signed amount to the balance and
round to two decimals. -/
def update_bal (bal t_amount : ℚ) (t_type : TType) : ℚ :=
  round2 (match t_type with
    | TType.income => bal + t_amount
    | TType.expense => bal - t_amount)

/-- `set_balance_checkpoint` (logic.py 181-184): drop any checkpoint with the
same date, append the new one, and re-sort ascending by date. -/
def set_balance_checkpoint (history : List BalanceCheckpoint) (cp_date : Date)
    (amount : ℚ) : List BalanceCheckpoint :=
  List.mergeSort
    ((history.filter (fun cp => !(cp.date == cp_date))) ++ [⟨cp_date, amount⟩])
    (fun a b => decide (toOrd a.date ≤ toOrd b.date))

/-- `max(valid_cps, key=lambda x: x.date)`: first element of maximal date. -/
def maxByDate : BalanceCheckpoint → List BalanceCheckpoint → BalanceCheckpoint
  | best, [] => best
  | best, cp :: rest => maxByDate (if toOrd best.date < toOrd cp.date then cp else best) rest

/-- `get_nearest_checkpoint` (logic.py 187-191): latest checkpoint dated at or
before the target, `none` when there is no such checkpoint. -/
def get_nearest_checkpoint (history : List BalanceCheckpoint) (target : Date) :
    Option BalanceCheckpoint :=
  match history.filter (fun cp => toOrd cp.date ≤ toOrd target) with
  | [] => none
  | cp :: rest => some (maxByDate cp rest)

/-- The in-source leap test of the yearly branch (logic.py 230):
`c_date.year % 4 and (c_date.year % 100 != 0 or c_date.year % 400 == 0)`.
Python truthiness makes `year % 4` stand for `year % 4 != 0`. -/
def isLeapBuggy (y : Nat) : Bool := y % 4 != 0 && (y % 100 != 0 || y % 400 == 0)

/-- The recurrence decision of the simulation loop body (logic.py 209-240):
whether transaction `t` is applied on simulated day `c`.  Transactions dated
after `c` are skipped; a non-recurring transaction applies exactly on its own
date; a recurring one applies on its own date and afterwards according to its
interval string, where the yearly branch uses the in-source [isLeapBuggy]
test for leap-day anchors. -/
def contributes (t : Transaction) (c : Date) : Bool :=
  if toOrd c < toOrd t.t_date then false
  else if t.is_rec = false then t.t_date == c
  else if t.t_date == c then true
  else if toOrd t.t_date < toOrd c then
    let days : ℤ := (toOrd c : ℤ) - (toOrd t.t_date : ℤ)
    if t.rec_interval = some "daily" then decide (0 < days)
    else if t.rec_interval = some "weekly" then decide (0 < days) && days % 7 == 0
    else if t.rec_interval = some "monthly" then
      let m : ℤ := ((c.year : ℤ) - (t.t_date.year : ℤ)) * 12 +
                   ((c.month : ℤ) - (t.t_date.month : ℤ))
      decide (0 < m) && c == addMonthsClamp t.t_date m.toNat
    else if t.rec_interval = some "yearly" then
      if t.t_date.month = 2 ∧ t.t_date.day = 29 then
        if isLeapBuggy c.year ∧ c.month = 2 ∧ c.day = 29 then true
        else if isLeapBuggy c.year = false ∧ c.month = 2 ∧ c.day = 28 then true
        else false
      else decide (c.day = t.t_date.day ∧ c.month = t.t_date.month ∧ t.t_date.year < c.year)
    else false
  else false

/-- One simulated day (the inner `for` of logic.py 208-240): fold the
transaction list over the balance, applying every contributing transaction. -/
def applyDay (txs : List Transaction) (c : Date) (bal : ℚ) : ℚ :=
  txs.foldl (fun b t => if contributes t c then update_bal b t.amount t.t_type else b) bal

/-- The `while c_date <= target_date` loop (logic.py 207-242), driven by a
fuel counter that [calc_proj_bal] instantiates with the exact number of days
of the window. -/
def simulate (txs : List Transaction) (target : Date) : Nat → Date → ℚ → ℚ
  | 0, _, bal => bal
  | fuel + 1, c, bal =>
    if toOrd target < toOrd c then bal
    else simulate txs target fuel (nextDay c) (applyDay txs c bal)

/-- The no-checkpoint cursor seed (logic.py 203-205):
`min(min(transaction dates, default=today), today)`. -/
def minDate (ds : List Date) (today : Date) : Date :=
  let inner :=
    match ds with
    | [] => today
    | d :: rest => rest.foldl (fun a b => if toOrd a ≤ toOrd b then a else b) d
  if toOrd inner ≤ toOrd today then inner else today

/-- Initial balance and cursor of `calc_proj_bal` (logic.py 195-205). -/
def startState (s : Store) (today target : Date) : ℚ × Date :=
  match get_nearest_checkpoint s.balance_history target with
  | some cp => (cp.amount, cp.date)
  | none => (0, minDate (s.transactions.map (fun t => t.t_date)) today)

/-- `calc_proj_bal` (logic.py 194-243), with `today` made explicit.  The
while loop runs once per day from the cursor to the target inclusive; the
fuel `toOrd target + 1 - toOrd cursor` is exactly that number of days (and 0
when the cursor starts past the target, in which case the loop never runs). -/
def calc_proj_bal (s : Store) (today target : Date) : ℚ :=
  let st := startState s today target
  simulate s.transactions target (toOrd target + 1 - toOrd st.2) st.2 st.1

/-! ### Derived summation forms used to state the algebraic claims -/

/-- The signed effect of one application of a transaction:
`+amount` for income, `-amount` for expense. -/
def effect (t : Transaction) : ℚ :=
  match t.t_type with
  | TType.income => t.amount
  | TType.expense => -t.amount

/-- Sum of the signed effects of all transactions contributing on day `c`. -/
def daySum (txs : List Transaction) (c : Date) : ℚ :=
  (txs.map (fun t => if contributes t c then effect t else 0)).sum

/-- Sum of the signed effects of all contributions on days strictly after
`d1` and at or before `d2` (day `d1 + (k+1)` for `k` up to the day distance). -/
def contribSum (txs : List Transaction) (d1 d2 : Date) : ℚ :=
  ∑ k ∈ Finset.range (toOrd d2 - toOrd d1), daySum txs (advanceDays (k + 1) d1)

/-! ### State-passing forms of the two engines (for the frame property) -/

/-- The `check_spending` loop with the store state threaded through every
iteration (the source reads `transactions` and `budget_categories` and never
assigns to them). -/
def spendingStepSt (tf : Timeframe) (target : Date ⊕ Nat)
    (acc : Store × Option (Totals × CatMap)) (t : Transaction) :
    Store × Option (Totals × CatMap) :=
  (acc.1, spendingStep tf target acc.2 t)

/-- `check_spending` as a state transformer: the resulting store paired with
the result value. -/
def check_spending_st (s : Store) (today : Date) (day month year : Option Nat) :
    Store × Option SpendingResult :=
  let tft := set_timeframe today year month day
  let init : Totals × CatMap :=
    (zeroTotals, s.budget_categories.map (fun c => (c.name, zeroTotals)))
  let out := s.transactions.foldl (spendingStepSt tft.1 tft.2) (s, some init)
  (out.1, out.2.map
    (fun tc =>
      { timeframe := tft.1, target := tft.2,
        totals := { tc.1 with net := tc.1.income - tc.1.expense },
        categories := tc.2 }))

/-- The simulation loop with the store threaded through every day. -/
def simulateSt (target : Date) : Nat → Store → Date → ℚ → Store × ℚ
  | 0, s, _, bal => (s, bal)
  | fuel + 1, s, c, bal =>
    if toOrd target < toOrd c then (s, bal)
    else simulateSt target fuel s (nextDay c) (applyDay s.transactions c bal)

/-- `calc_proj_bal` as a state transformer: the resulting store paired with
the projected balance. -/
def calc_proj_bal_st (s : Store) (today target : Date) : Store × ℚ :=
  let st := startState s today target
  simulateSt target (toOrd target + 1 - toOrd st.2) s st.2 st.1

unseal Rat.add Rat.mul Rat.inv Rat.sub in
example :
    calc_proj_bal ⟨[⟨100, TType.income, ⟨2023, 1, 1⟩, false, none, "", none⟩,
                    ⟨50, TType.expense, ⟨2023, 1, 2⟩, false, none, "", none⟩], [], []⟩
      ⟨2023, 1, 1⟩ ⟨2023, 1, 3⟩ = 50 := by decide

unseal Rat.add Rat.mul Rat.inv Rat.sub in
example :
    calc_proj_bal ⟨[⟨100, TType.income, ⟨2023, 1, 2⟩, false, none, "", none⟩,
                    ⟨50, TType.expense, ⟨2023, 1, 3⟩, false, none, "", none⟩], [],
                   [⟨⟨2023, 1, 1⟩, 1000⟩]⟩
      ⟨2023, 1, 1⟩ ⟨2023, 1, 4⟩ = 1050 := by decide

/-! ### Concrete stores used to evaluate the aggregation and CRUD claims -/

/-- A categorized expense dated 2023-01-01. -/
def txJan1 : Transaction := ⟨50, TType.expense, ⟨2023, 1, 1⟩, false, none, "", some "Food"⟩

/-- Store with one categorized transaction on 2023-01-01. -/
def sFood : Store := ⟨[txJan1], [⟨"Food", none, [txJan1]⟩], []⟩

/-- An uncategorized income dated 2023-01-01. -/
def txNoCat : Transaction := ⟨75, TType.income, ⟨2023, 1, 1⟩, false, none, "", none⟩

/-- Store with one uncategorized transaction. -/
def sNoCat : Store := ⟨[txNoCat], [], []⟩

/-- A yearly-recurring income anchored on the leap day 2020-02-29. -/
def txLeap : Transaction := ⟨100, TType.income, ⟨2020, 2, 29⟩, true, some "yearly", "", none⟩

/-! ### Claims -/

unseal Rat.add Rat.mul Rat.inv Rat.sub in
/-- C1.  The claim states that in a day window a transaction is included in
the totals iff its date equals the window's day.  The code disagrees: the
`pass` branch of logic.py 148-149 has no matching `continue`, so a day window
includes EVERY transaction.  Here the window is the day 2023-01-02 and the
only transaction is dated 2023-01-01, yet it is counted both in the totals
and in the per-category figures. -/
theorem c1_day_window_filter_bug :
    (check_spending sFood ⟨2023, 6, 15⟩ (some 2) (some 1) (some 2023)).map
        (fun r => (r.timeframe, r.target, r.totals.expense)) =
      some (Timeframe.day, Sum.inl ⟨2023, 1, 2⟩, 50) ∧
    (check_spending sFood ⟨2023, 6, 15⟩ (some 2) (some 1) (some 2023)).map
        (fun r => r.categories) =
      some [("Food", ⟨0, 50, -50⟩)] := by
  decide

/-- C2.  The claim (with the spec) says a transaction anchored 2020-02-29
recurring yearly contributes on 2021-02-28 and on 2024-02-29.  The in-source
leap test (logic.py 230) is inverted — `c_date.year % 4` is truthy exactly
when the year is NOT divisible by 4 — so the code contributes on neither of
those days, and instead contributes on 2024-02-28. -/
theorem c2_leap_anchor_bug :
    contributes txLeap ⟨2021, 2, 28⟩ = false ∧
    contributes txLeap ⟨2024, 2, 29⟩ = false ∧
    contributes txLeap ⟨2024, 2, 28⟩ = true ∧
    isLeapBuggy 2024 = false ∧ isLeapBuggy 2021 = true := by
  decide

unseal Rat.add Rat.mul Rat.inv Rat.sub in
/-- C3.  The claim says `check_spending` is total on a well-formed store
containing an uncategorized transaction and counts its amount in the totals.
The code instead evaluates `t.category.name` (logic.py 159) on `None` and
raises `AttributeError`, modeled by the `none` result. -/
theorem c3_null_category_attribute_error :
    check_spending sNoCat ⟨2023, 1, 1⟩ (some 1) (some 1) (some 2023) = none := by
  decide

/-- C4.  The claim says every transaction created by `add_transaction`
carries a unique numeric identifier that `delete_transaction` can look up.
But the `Transaction` dataclass of models.py declares no `id` field and
`add_transaction` assigns none, so `delete_transaction` fails with
`AttributeError` on its first `t.id` access for any store holding a
transaction created by `add_transaction` (it returns `False` only on an
empty store, whose loop body never runs). -/
theorem c4_missing_transaction_id :
    delete_transaction
      (add_transaction emptyStore 10 TType.income ⟨2023, 1, 1⟩ none false none
        "").transactions 0 = none ∧
    delete_transaction [] 5 = some false := by
  constructor
  · rfl
  · rfl

/-- C7.  With at least one checkpoint at or before the target, the simulation
starts on the anchor checkpoint's own date with the checkpoint amount, so a
transaction dated exactly on the anchor date is applied again on top of the
checkpoint amount: projecting a one-transaction store to the anchor date
itself yields `round2 (checkpoint amount + transaction amount)`. -/
theorem c7_anchor_checkpoint_reapply :
    (∀ (s : Store) (today target : Date) (cp : BalanceCheckpoint),
      get_nearest_checkpoint s.balance_history target = some cp →
      startState s today target = (cp.amount, cp.date)) ∧
    (∀ (cpAmt txAmt : ℚ) (D today : Date),
      calc_proj_bal ⟨[⟨txAmt, TType.income, D, false, none, "", none⟩], [], [⟨D, cpAmt⟩]⟩
        today D = round2 (cpAmt + txAmt)) := by
  constructor
  · intro s today target cp h
    unfold startState
    rw [h]
  · intro cpAmt txAmt D today
    have hg : startState ⟨[⟨txAmt, TType.income, D, false, none, "", none⟩], [], [⟨D, cpAmt⟩]⟩
        today D = (cpAmt, D) := by
      unfold startState get_nearest_checkpoint maxByDate
      simp [List.filter_cons]
    have hc : contributes ⟨txAmt, TType.income, D, false, none, "", none⟩ D = true := by
      unfold contributes
      simp
    unfold calc_proj_bal
    rw [hg]
    show simulate [⟨txAmt, TType.income, D, false, none, "", none⟩] D
        (toOrd D + 1 - toOrd D) D cpAmt = round2 (cpAmt + txAmt)
    rw [show toOrd D + 1 - toOrd D = 1 from by omega]
    simp [simulate, applyDay, List.foldl, hc, update_bal, lt_irrefl]

/-- Witness for C7: the hypothesis of the first conjunct discharged at a
concrete store. -/
theorem c7_anchor_checkpoint_reapply_witness :
    startState ⟨[], [], [⟨⟨2023, 1, 1⟩, 1000⟩]⟩ ⟨2023, 1, 1⟩ ⟨2023, 2, 1⟩ =
      (1000, ⟨2023, 1, 1⟩) :=
  c7_anchor_checkpoint_reapply.1 _ _ _ ⟨⟨2023, 1, 1⟩, 1000⟩ (by decide)

/-- A monthly-recurring expense anchored 2023-01-31. -/
def txMonthly : Transaction := ⟨25, TType.expense, ⟨2023, 1, 31⟩, true, some "monthly", "", none⟩

/-- C6.  A monthly-recurring transaction contributes on a later day `d` iff
the calendar-month distance `m` is positive and `d` is the anchor advanced by
`m` months with month-end clamping; in particular an anchor of 2023-01-31
contributes on 2023-02-28 and 2023-03-31 and on no other day of those two
months. -/
theorem c6_monthly_recurrence (t : Transaction) (h1 : t.is_rec = true)
    (h2 : t.rec_interval = some "monthly") (d : Date) (h3 : toOrd t.t_date < toOrd d) :
    (contributes t d = true ↔
      (0 < ((d.year : ℤ) - (t.t_date.year : ℤ)) * 12 +
          ((d.month : ℤ) - (t.t_date.month : ℤ)) ∧
        d = addMonthsClamp t.t_date
          ((((d.year : ℤ) - (t.t_date.year : ℤ)) * 12 +
            ((d.month : ℤ) - (t.t_date.month : ℤ))).toNat))) ∧
    (∀ mo, mo < 4 → 2 ≤ mo → ∀ dd, dd < 32 →
      (contributes txMonthly ⟨2023, mo, dd⟩ = true ↔
        ((mo = 2 ∧ dd = 28) ∨ (mo = 3 ∧ dd = 31)))) := by
  constructor
  · have hnlt : ¬(toOrd d < toOrd t.t_date) := by omega
    have hne : (t.t_date == d) = false := by
      rw [beq_eq_false_iff_ne]
      intro he
      rw [he] at h3
      exact lt_irrefl _ h3
    rw [contributes]
    simp only [if_neg hnlt, h1, h2, hne, if_pos h3]
    simp [and_comm]
  · decide

/-- Witness for C6 at the concrete anchor 2023-01-31 and day 2023-02-28. -/
theorem c6_monthly_recurrence_witness : contributes txMonthly ⟨2023, 2, 28⟩ = true :=
  ((c6_monthly_recurrence txMonthly rfl rfl ⟨2023, 2, 28⟩ (by decide)).1).mpr (by decide)

/-- The checkpoint-collection invariant of the data model: dates ascending
and no two checkpoints sharing a date. -/
def CheckpointInv (l : List BalanceCheckpoint) : Prop :=
  List.Pairwise (fun a b => toOrd a.date ≤ toOrd b.date) l ∧
  (l.map (fun cp => cp.date)).Nodup

instance (l : List BalanceCheckpoint) : Decidable (CheckpointInv l) := by
  unfold CheckpointInv; infer_instance

/-- C8.  `set_balance_checkpoint` preserves the checkpoint invariant and
leaves exactly one checkpoint with the written date, carrying the written
amount. -/
theorem c8_set_checkpoint_invariant (h : List BalanceCheckpoint) (d : Date) (a : ℚ)
    (hinv : CheckpointInv h) :
    CheckpointInv (set_balance_checkpoint h d a) ∧
    (set_balance_checkpoint h d a).filter (fun cp => cp.date == d) = [⟨d, a⟩] := by
  have hperm : (set_balance_checkpoint h d a).Perm
      ((h.filter (fun cp => !(cp.date == d))) ++ [⟨d, a⟩]) :=
    List.mergeSort_perm _ _
  refine ⟨⟨?_, ?_⟩, ?_⟩
  · have hs := @List.sorted_mergeSort BalanceCheckpoint
      (fun a b : BalanceCheckpoint => decide (toOrd a.date ≤ toOrd b.date))
      (fun x y z hxy hyz => by simp only [decide_eq_true_eq] at *; omega)
      (fun x y => by simp only [Bool.or_eq_true, decide_eq_true_eq]; omega)
      ((h.filter (fun cp => !(cp.date == d))) ++ [⟨d, a⟩])
    exact hs.imp (fun hab => of_decide_eq_true hab)
  · rw [(hperm.map (fun cp => cp.date)).nodup_iff, List.map_append, List.nodup_append]
    refine ⟨?_, by simp, ?_⟩
    · exact List.Nodup.sublist ((List.filter_sublist h).map _) hinv.2
    · intro x hx
      simp only [List.mem_map, List.mem_filter] at hx
      obtain ⟨cp, ⟨hcp, hne⟩, rfl⟩ := hx
      simp only [Bool.not_eq_eq_eq_not, Bool.not_true, beq_eq_false_iff_ne] at hne
      simp [hne]
  · have hp := hperm.filter (fun cp => cp.date == d)
    rw [List.filter_append] at hp
    have h1 : (h.filter (fun cp => !(cp.date == d))).filter (fun cp => cp.date == d) = [] := by
      rw [List.filter_eq_nil_iff]
      intro cp hcp
      have := (List.mem_filter.mp hcp).2
      simp only [Bool.not_eq_eq_eq_not, Bool.not_true, beq_eq_false_iff_ne] at this
      simp [this]
    have h2 : ([(⟨d, a⟩ : BalanceCheckpoint)]).filter (fun cp => cp.date == d) =
        [⟨d, a⟩] := by simp
    rw [h1, h2, List.nil_append] at hp
    exact List.perm_singleton.mp hp

/-- Witness for C8 at a concrete one-checkpoint history. -/
theorem c8_set_checkpoint_invariant_witness :
    CheckpointInv (set_balance_checkpoint [⟨⟨2023, 5, 1⟩, 10⟩] ⟨2023, 4, 1⟩ 7) ∧
    (set_balance_checkpoint [⟨⟨2023, 5, 1⟩, 10⟩] ⟨2023, 4, 1⟩ 7).filter
      (fun cp => cp.date == ⟨2023, 4, 1⟩) = [⟨⟨2023, 4, 1⟩, 7⟩] :=
  c8_set_checkpoint_invariant [⟨⟨2023, 5, 1⟩, 10⟩] ⟨2023, 4, 1⟩ 7 (by decide)

/-- The state-passing spending fold leaves the store component unchanged. -/
theorem foldl_spendingStepSt (tf : Timeframe) (target : Date ⊕ Nat)
    (l : List Transaction) (s : Store) (acc : Option (Totals × CatMap)) :
    l.foldl (spendingStepSt tf target) (s, acc) =
      (s, l.foldl (spendingStep tf target) acc) := by
  induction l generalizing acc with
  | nil => rfl
  | cons t rest ih => exact ih (spendingStep tf target acc t)

/-- The state-passing simulation leaves the store component unchanged and
computes the same balance as the pure simulation. -/
theorem simulateSt_eq (target : Date) (fuel : Nat) (s : Store) (c : Date) (bal : ℚ) :
    simulateSt target fuel s c bal = (s, simulate s.transactions target fuel c bal) := by
  induction fuel generalizing c bal with
  | zero => rfl
  | succ k ih =>
    rw [simulateSt, simulate]
    by_cases hg : toOrd target < toOrd c
    · rw [if_pos hg, if_pos hg]
    · rw [if_neg hg, if_neg hg, ih]

/-- C9.  Neither engine mutates the store: threading the store through every
loop iteration of `check_spending` and `calc_proj_bal` returns it unchanged,
with the same result value as the pure reading. -/
theorem c9_engines_pure :
    (∀ (s : Store) (today : Date) (day month year : Option Nat),
      (check_spending_st s today day month year).1 = s ∧
      (check_spending_st s today day month year).2 = check_spending s today day month year) ∧
    (∀ (s : Store) (today target : Date),
      (calc_proj_bal_st s today target).1 = s ∧
      (calc_proj_bal_st s today target).2 = calc_proj_bal s today target) := by
  constructor
  · intro s today day month year
    unfold check_spending_st check_spending
    simp only [foldl_spendingStepSt]
    simp
  · intro s today target
    unfold calc_proj_bal_st calc_proj_bal
    simp only [simulateSt_eq]
    simp

/-! ### Simulation lemmas -/

theorem contributes_false_of_lt (t : Transaction) (c : Date)
    (h : toOrd c < toOrd t.t_date) : contributes t c = false := by
  unfold contributes
  rw [if_pos h]

theorem applyDay_skip (txs : List Transaction) (c : Date) (bal : ℚ)
    (h : ∀ t ∈ txs, toOrd c < toOrd t.t_date) : applyDay txs c bal = bal := by
  induction txs with
  | nil => rfl
  | cons t rest ih =>
    unfold applyDay at *
    simp only [List.foldl]
    rw [contributes_false_of_lt t c (h t (List.mem_cons_self t rest))]
    simp only [Bool.false_eq_true, if_false, if_neg]
    exact ih (fun u hu => h u (List.mem_cons_of_mem t hu))

theorem simulate_nil (target : Date) (fuel : Nat) (c : Date) (bal : ℚ) :
    simulate [] target fuel c bal = bal := by
  induction fuel generalizing c with
  | zero => rfl
  | succ k ih =>
    rw [simulate]
    by_cases hg : toOrd target < toOrd c
    · rw [if_pos hg]
    · rw [if_neg hg]
      have happ : applyDay [] c bal = bal := rfl
      rw [happ, ih]

theorem simulate_pad (txs : List Transaction) (target : Date) (n : Nat) :
    ∀ (c : Date) (bal : ℚ), Valid c →
    (∀ t ∈ txs, toOrd c + n ≤ toOrd t.t_date) →
    simulate txs target (toOrd target + 1 - toOrd c) c bal =
      simulate txs target (toOrd target + 1 - (toOrd c + n)) (advanceDays n c) bal := by
  induction n with
  | zero => intro c bal _ _; rfl
  | succ k ih =>
    intro c bal hvc hall
    by_cases hg : toOrd c ≤ toOrd target
    · have hfuel : toOrd target + 1 - toOrd c = (toOrd target - toOrd c) + 1 := by omega
      rw [hfuel, simulate, if_neg (by omega : ¬(toOrd target < toOrd c))]
      rw [applyDay_skip txs c bal (fun t ht => by have := hall t ht; omega)]
      have hnext := toOrd_nextDay c hvc
      rw [show toOrd target - toOrd c = toOrd target + 1 - toOrd (nextDay c) from by omega]
      rw [ih (nextDay c) bal (nextDay_valid c hvc)
        (fun t ht => by have := hall t ht; omega)]
      rw [show toOrd (nextDay c) + k = toOrd c + (k + 1) from by omega]
      rfl
    · have e1 : toOrd target + 1 - toOrd c = 0 := by omega
      have e2 : toOrd target + 1 - (toOrd c + (k + 1)) = 0 := by omega
      rw [e1, e2]
      rfl

/-- The fold computing `min(transaction dates)` yields its seed or a list
element. -/
theorem foldl_minD_mem (l : List Date) : ∀ (init : Date),
    l.foldl (fun a b => if toOrd a ≤ toOrd b then a else b) init = init ∨
    l.foldl (fun a b => if toOrd a ≤ toOrd b then a else b) init ∈ l := by
  induction l with
  | nil => intro init; exact Or.inl rfl
  | cons d rest ih =>
    intro init
    simp only [List.foldl]
    by_cases hc : toOrd init ≤ toOrd d
    · rw [if_pos hc]
      rcases ih init with h | h
      · exact Or.inl h
      · exact Or.inr (List.mem_cons_of_mem d h)
    · rw [if_neg hc]
      rcases ih d with h | h
      · exact Or.inr (by rw [h]; exact List.mem_cons_self d rest)
      · exact Or.inr (List.mem_cons_of_mem d h)

/-- The fold computing `min(transaction dates)` is a lower bound. -/
theorem foldl_minD_le (l : List Date) : ∀ (init : Date),
    toOrd (l.foldl (fun a b => if toOrd a ≤ toOrd b then a else b) init) ≤ toOrd init ∧
    ∀ x ∈ l, toOrd (l.foldl (fun a b => if toOrd a ≤ toOrd b then a else b) init) ≤ toOrd x := by
  induction l with
  | nil => intro init; exact ⟨le_refl _, by intro x hx; cases hx⟩
  | cons d rest ih =>
    intro init
    simp only [List.foldl]
    by_cases hc : toOrd init ≤ toOrd d
    · rw [if_pos hc]
      refine ⟨(ih init).1, ?_⟩
      intro x hx
      rcases List.mem_cons.mp hx with rfl | hx
      · exact le_trans (ih init).1 hc
      · exact (ih init).2 x hx
    · rw [if_neg hc]
      refine ⟨le_trans (ih d).1 (by omega), ?_⟩
      intro x hx
      rcases List.mem_cons.mp hx with heq | hx
      · rw [heq]
        exact (ih d).1
      · exact (ih d).2 x hx

theorem minDate_le (ds : List Date) (today : Date) :
    toOrd (minDate ds today) ≤ toOrd today ∧
    ∀ x ∈ ds, toOrd (minDate ds today) ≤ toOrd x := by
  unfold minDate
  cases ds with
  | nil =>
    simp only
    rw [if_pos (le_refl _)]
    exact ⟨le_refl _, by intro x hx; cases hx⟩
  | cons d rest =>
    simp only
    by_cases hc : toOrd (rest.foldl (fun a b => if toOrd a ≤ toOrd b then a else b) d) ≤
        toOrd today
    · rw [if_pos hc]
      refine ⟨hc, ?_⟩
      intro x hx
      rcases List.mem_cons.mp hx with heq | hx
      · rw [heq]
        exact (foldl_minD_le rest d).1
      · exact (foldl_minD_le rest d).2 x hx
    · rw [if_neg hc]
      refine ⟨le_refl _, ?_⟩
      intro x hx
      rcases List.mem_cons.mp hx with heq | hx
      · rw [heq]
        exact le_trans (by omega) (foldl_minD_le rest d).1
      · exact le_trans (by omega) ((foldl_minD_le rest d).2 x hx)

theorem minDate_cases (ds : List Date) (today : Date) :
    minDate ds today ∈ ds ∨ minDate ds today = today := by
  unfold minDate
  cases ds with
  | nil => simp
  | cons d rest =>
    simp only
    split
    · rcases foldl_minD_mem rest d with h | h
      · exact Or.inl (by rw [h]; exact List.mem_cons_self d rest)
      · exact Or.inl (List.mem_cons_of_mem d h)
    · exact Or.inr rfl

theorem minDate_valid (ds : List Date) (today : Date)
    (hds : ∀ x ∈ ds, Valid x) (ht : Valid today) : Valid (minDate ds today) := by
  rcases minDate_cases ds today with h | h
  · exact hds _ h
  · rw [h]; exact ht

/-- Any run of the simulation seeded below every transaction date equals the
run seeded at the lower bound itself. -/
theorem simulate_from_seed (txs : List Transaction) (target : Date) (seed m : Date)
    (hvs : Valid seed) (hvm : Valid m) (hle : toOrd seed ≤ toOrd m)
    (hall : ∀ t ∈ txs, toOrd m ≤ toOrd t.t_date) :
    simulate txs target (toOrd target + 1 - toOrd seed) seed 0 =
      simulate txs target (toOrd target + 1 - toOrd m) m 0 := by
  have hpad := simulate_pad txs target (toOrd m - toOrd seed) seed 0 hvs
    (fun t ht => by have := hall t ht; omega)
  rw [hpad]
  have hadv : advanceDays (toOrd m - toOrd seed) seed = m := by
    apply toOrd_inj _ _ (advanceDays_valid _ _ hvs) hvm
    rw [toOrd_advanceDays _ _ hvs]
    omega
  rw [hadv, show toOrd seed + (toOrd m - toOrd seed) = toOrd m from by omega]

/-- C10.  The projected balance does not depend on the wall-clock date: the
`today` seed of the cursor only ever adds leading days on which no
transaction can contribute. -/
theorem c10_today_independent (s : Store) (t1 t2 target : Date)
    (hv : ∀ t ∈ s.transactions, Valid t.t_date) (h1 : Valid t1) (h2 : Valid t2) :
    calc_proj_bal s t1 target = calc_proj_bal s t2 target := by
  unfold calc_proj_bal startState
  cases hcp : get_nearest_checkpoint s.balance_history target with
  | some cp => simp
  | none =>
    simp only
    show simulate s.transactions target
        (toOrd target + 1 - toOrd (minDate (s.transactions.map (fun t => t.t_date)) t1))
        (minDate (s.transactions.map (fun t => t.t_date)) t1) 0 =
      simulate s.transactions target
        (toOrd target + 1 - toOrd (minDate (s.transactions.map (fun t => t.t_date)) t2))
        (minDate (s.transactions.map (fun t => t.t_date)) t2) 0
    cases htx : s.transactions with
    | nil => simp [simulate_nil]
    | cons t0 rest =>
      rw [← htx]
      have hvds : ∀ x ∈ s.transactions.map (fun t => t.t_date), Valid x := by
        intro x hx
        obtain ⟨t, ht, rfl⟩ := List.mem_map.mp hx
        exact hv t ht
      have ht0mem : t0.t_date ∈ s.transactions.map (fun t => t.t_date) := by
        rw [htx]
        exact List.mem_map_of_mem _ (List.mem_cons_self t0 rest)
      have hvt0 : Valid t0.t_date := hvds _ ht0mem
      -- the canonical seed: the minimum over the transaction dates themselves
      have hkey : ∀ today : Date, Valid today →
          simulate s.transactions target
            (toOrd target + 1 - toOrd (minDate (s.transactions.map (fun t => t.t_date)) today))
            (minDate (s.transactions.map (fun t => t.t_date)) today) 0 =
          simulate s.transactions target
            (toOrd target + 1 -
              toOrd (minDate (s.transactions.map (fun t => t.t_date)) t0.t_date))
            (minDate (s.transactions.map (fun t => t.t_date)) t0.t_date) 0 := by
        intro today htoday
        apply simulate_from_seed
        · exact minDate_valid _ _ hvds htoday
        · exact minDate_valid _ _ hvds hvt0
        · -- the seed from `today` is at most the seed from the head date, because
          -- the latter lies among the transaction dates
          rcases minDate_cases (s.transactions.map (fun t => t.t_date)) t0.t_date with hm | hm
          · exact (minDate_le _ today).2 _ hm
          · rw [hm]
            exact (minDate_le _ today).2 _ ht0mem
        · intro t ht
          exact (minDate_le _ t0.t_date).2 _ (List.mem_map_of_mem _ ht)
      rw [hkey t1 h1, hkey t2 h2]

/-- Witness for C10 at a concrete store and two wall-clock dates. -/
theorem c10_today_independent_witness :
    calc_proj_bal ⟨[⟨3, TType.income, ⟨2023, 1, 2⟩, false, none, "", none⟩], [], []⟩
      ⟨2022, 12, 30⟩ ⟨2023, 1, 3⟩ =
    calc_proj_bal ⟨[⟨3, TType.income, ⟨2023, 1, 2⟩, false, none, "", none⟩], [], []⟩
      ⟨2023, 1, 3⟩ ⟨2023, 1, 3⟩ :=
  c10_today_independent _ ⟨2022, 12, 30⟩ ⟨2023, 1, 3⟩ ⟨2023, 1, 3⟩
    (by decide) (by decide) (by decide)

/-! ### Whole-cent amounts and the additivity of the projection -/

/-- An amount that is a whole number of cents (the denominations `round2`
leaves fixed). -/
def IsCents (q : ℚ) : Prop := (q * 100).den = 1

instance (q : ℚ) : Decidable (IsCents q) := by
  unfold IsCents; infer_instance

theorem isCents_iff (q : ℚ) : IsCents q ↔ ∃ n : ℤ, (n : ℚ) = q * 100 := by
  unfold IsCents
  constructor
  · intro h
    exact ⟨(q * 100).num, (Rat.den_eq_one_iff _).mp h⟩
  · rintro ⟨n, hn⟩
    rw [← hn]
    exact Rat.intCast_den n

theorem isCents_zero : IsCents 0 := by
  rw [isCents_iff]
  exact ⟨0, by norm_num⟩

theorem isCents_add (a b : ℚ) (ha : IsCents a) (hb : IsCents b) : IsCents (a + b) := by
  rw [isCents_iff] at *
  obtain ⟨m, hm⟩ := ha
  obtain ⟨n, hn⟩ := hb
  exact ⟨m + n, by push_cast; rw [hm, hn]; ring⟩

theorem isCents_neg (a : ℚ) (ha : IsCents a) : IsCents (-a) := by
  rw [isCents_iff] at *
  obtain ⟨m, hm⟩ := ha
  exact ⟨-m, by push_cast; rw [hm]; ring⟩

theorem round2_isCents (q : ℚ) (h : IsCents q) : round2 q = q := by
  obtain ⟨n, hn⟩ := (isCents_iff q).mp h
  unfold round2
  rw [← hn, round_intCast, hn]
  field_simp

theorem isCents_effect (t : Transaction) (h : IsCents t.amount) : IsCents (effect t) := by
  unfold effect
  cases t.t_type
  · exact h
  · exact isCents_neg _ h

theorem update_bal_cents (b : ℚ) (t : Transaction) (hb : IsCents b)
    (ha : IsCents t.amount) : update_bal b t.amount t.t_type = b + effect t := by
  unfold update_bal effect
  cases t.t_type
  · exact round2_isCents _ (isCents_add _ _ hb ha)
  · have hcents : IsCents (b - t.amount) := by
      rw [sub_eq_add_neg]
      exact isCents_add _ _ hb (isCents_neg _ ha)
    rw [round2_isCents _ hcents]
    ring

theorem daySum_cons (t : Transaction) (rest : List Transaction) (c : Date) :
    daySum (t :: rest) c =
      (if contributes t c then effect t else 0) + daySum rest c := by
  simp [daySum]

theorem daySum_zero_of_lt (txs : List Transaction) (c : Date)
    (h : ∀ t ∈ txs, toOrd c < toOrd t.t_date) : daySum txs c = 0 := by
  induction txs with
  | nil => rfl
  | cons t rest ih =>
    rw [daySum_cons, contributes_false_of_lt t c (h t (List.mem_cons_self t rest))]
    simp only [Bool.false_eq_true, if_false, if_neg]
    rw [ih (fun u hu => h u (List.mem_cons_of_mem t hu))]
    ring

theorem isCents_daySum (txs : List Transaction) (c : Date)
    (h : ∀ t ∈ txs, IsCents t.amount) : IsCents (daySum txs c) := by
  induction txs with
  | nil => exact isCents_zero
  | cons t rest ih =>
    rw [daySum_cons]
    apply isCents_add
    · by_cases hc : contributes t c = true
      · rw [if_pos hc]
        exact isCents_effect t (h t (List.mem_cons_self t rest))
      · rw [if_neg hc]
        exact isCents_zero
    · exact ih (fun u hu => h u (List.mem_cons_of_mem t hu))

theorem applyDay_sum (txs : List Transaction) (c : Date) :
    ∀ (bal : ℚ), IsCents bal → (∀ t ∈ txs, IsCents t.amount) →
    applyDay txs c bal = bal + daySum txs c := by
  induction txs with
  | nil => intro bal _ _; show bal = bal + daySum [] c; show bal = bal + 0; ring
  | cons t rest ih =>
    intro bal hb hc
    have hstep : applyDay (t :: rest) c bal =
        applyDay rest c (if contributes t c then update_bal bal t.amount t.t_type else bal) := by
      unfold applyDay
      simp only [List.foldl]
    rw [hstep, daySum_cons]
    by_cases hcon : contributes t c = true
    · rw [if_pos hcon, if_pos hcon]
      rw [update_bal_cents bal t hb (hc t (List.mem_cons_self t rest))]
      rw [ih (bal + effect t)
        (isCents_add _ _ hb (isCents_effect t (hc t (List.mem_cons_self t rest))))
        (fun u hu => hc u (List.mem_cons_of_mem t hu))]
      ring
    · rw [if_neg hcon, if_neg hcon]
      rw [ih bal hb (fun u hu => hc u (List.mem_cons_of_mem t hu))]
      ring

theorem advanceDays_zero (d : Date) : advanceDays 0 d = d := rfl

theorem simulate_sum (txs : List Transaction) (target : Date)
    (hc : ∀ t ∈ txs, IsCents t.amount) (n : Nat) :
    ∀ (c : Date) (bal : ℚ), Valid c → IsCents bal →
    (n = 0 ∨ toOrd c + n ≤ toOrd target + 1) →
    simulate txs target n c bal =
      bal + ∑ k ∈ Finset.range n, daySum txs (advanceDays k c) := by
  induction n with
  | zero => intro c bal _ _ _; simp [simulate]
  | succ k ih =>
    intro c bal hvc hb hcond
    have hle : toOrd c + (k + 1) ≤ toOrd target + 1 := by omega
    rw [simulate, if_neg (by omega : ¬(toOrd target < toOrd c))]
    rw [applyDay_sum txs c bal hb hc]
    rw [ih (nextDay c) (bal + daySum txs c) (nextDay_valid c hvc)
      (isCents_add _ _ hb (isCents_daySum txs c hc))
      (Or.inr (by rw [toOrd_nextDay c hvc]; omega))]
    rw [Finset.sum_range_succ']
    simp only [advanceDays_succ, advanceDays_zero]
    ring

/-- Splitting a range sum at an intermediate point. -/
theorem sum_split (f : Nat → ℚ) (a b : Nat) :
    ∑ k ∈ Finset.range (a + b), f k =
      (∑ k ∈ Finset.range a, f k) + ∑ k ∈ Finset.range b, f (a + k) := by
  induction b with
  | zero => simp
  | succ m ih =>
    rw [show a + (m + 1) = (a + m) + 1 from by omega, Finset.sum_range_succ, ih,
        Finset.sum_range_succ]
    ring

theorem maxByDate_mem (l : List BalanceCheckpoint) : ∀ (best : BalanceCheckpoint),
    maxByDate best l = best ∨ maxByDate best l ∈ l := by
  induction l with
  | nil => intro best; exact Or.inl rfl
  | cons cp rest ih =>
    intro best
    rw [maxByDate]
    by_cases hc : toOrd best.date < toOrd cp.date
    · rw [if_pos hc]
      rcases ih cp with h | h
      · exact Or.inr (by rw [h]; exact List.mem_cons_self cp rest)
      · exact Or.inr (List.mem_cons_of_mem cp h)
    · rw [if_neg hc]
      rcases ih best with h | h
      · exact Or.inl h
      · exact Or.inr (List.mem_cons_of_mem cp h)

theorem get_nearest_mem_and_le (h : List BalanceCheckpoint) (target : Date)
    (cp : BalanceCheckpoint) (hcp : get_nearest_checkpoint h target = some cp) :
    cp ∈ h ∧ toOrd cp.date ≤ toOrd target := by
  unfold get_nearest_checkpoint at hcp
  cases hfl : h.filter (fun c => decide (toOrd c.date ≤ toOrd target)) with
  | nil => rw [hfl] at hcp; cases hcp
  | cons c rest =>
    rw [hfl] at hcp
    have hcpeq : cp = maxByDate c rest := by
      have := Option.some.inj hcp
      exact this.symm
    have hmem : cp ∈ c :: rest := by
      rcases maxByDate_mem rest c with hm | hm
      · rw [hcpeq, hm]; exact List.mem_cons_self c rest
      · rw [hcpeq]; exact List.mem_cons_of_mem c hm
    rw [← hfl] at hmem
    have := List.mem_filter.mp hmem
    exact ⟨this.1, of_decide_eq_true this.2⟩

/-- If no checkpoint lies in the window `(d1, d2]`, projecting to `d2` and
projecting to `d1` anchor identically. -/
theorem startState_congr (s : Store) (today d1 d2 : Date)
    (h12 : toOrd d1 ≤ toOrd d2)
    (hnocp : ∀ cp ∈ s.balance_history,
      ¬(toOrd d1 < toOrd cp.date ∧ toOrd cp.date ≤ toOrd d2)) :
    startState s today d2 = startState s today d1 := by
  unfold startState get_nearest_checkpoint
  have hfilter : s.balance_history.filter (fun cp => decide (toOrd cp.date ≤ toOrd d2)) =
      s.balance_history.filter (fun cp => decide (toOrd cp.date ≤ toOrd d1)) := by
    apply List.filter_congr
    intro cp hcp
    have := hnocp cp hcp
    simp only [decide_eq_decide]
    omega
  rw [hfilter]

theorem startState_valid (s : Store) (today target : Date)
    (hv : ∀ t ∈ s.transactions, Valid t.t_date)
    (hvc : ∀ cp ∈ s.balance_history, Valid cp.date) (ht : Valid today) :
    Valid (startState s today target).2 := by
  unfold startState
  cases hcp : get_nearest_checkpoint s.balance_history target with
  | some cp =>
    simp only
    exact hvc cp (get_nearest_mem_and_le _ _ _ hcp).1
  | none =>
    simp only
    apply minDate_valid _ _ _ ht
    intro x hx
    obtain ⟨t, htm, rfl⟩ := List.mem_map.mp hx
    exact hv t htm

theorem startState_cents (s : Store) (today target : Date)
    (hcc : ∀ cp ∈ s.balance_history, IsCents cp.amount) :
    IsCents (startState s today target).1 := by
  unfold startState
  cases hcp : get_nearest_checkpoint s.balance_history target with
  | some cp =>
    simp only
    exact hcc cp (get_nearest_mem_and_le _ _ _ hcp).1
  | none =>
    simp only
    exact isCents_zero

/-- Closed form of the projection: anchor amount plus the day sums of the
simulated window. -/
theorem calc_proj_closed (s : Store) (today target : Date)
    (hv : ∀ t ∈ s.transactions, Valid t.t_date)
    (hvc : ∀ cp ∈ s.balance_history, Valid cp.date)
    (ht : Valid today)
    (hc : ∀ t ∈ s.transactions, IsCents t.amount)
    (hcc : ∀ cp ∈ s.balance_history, IsCents cp.amount) :
    calc_proj_bal s today target = (startState s today target).1 +
      ∑ k ∈ Finset.range (toOrd target + 1 - toOrd (startState s today target).2),
        daySum s.transactions (advanceDays k (startState s today target).2) := by
  unfold calc_proj_bal
  exact simulate_sum s.transactions target hc _ _ _
    (startState_valid s today target hv hvc ht)
    (startState_cents s today target hcc)
    (by omega)

unseal Rat.add Rat.mul Rat.inv Rat.sub in
/-- Counterexample to C5 as stated: with a checkpoint dated 2023-01-05 of
amount 100, no transactions, D1 = 2023-01-04 and D2 = 2023-01-06, the
projection to D2 anchors on the checkpoint (value 100) while the projection
to D1 is 0 and no transaction contributes in between, so additivity fails. -/
theorem c5_additivity_counterexample :
    ¬(calc_proj_bal ⟨[], [], [⟨⟨2023, 1, 5⟩, 100⟩]⟩ ⟨2023, 1, 1⟩ ⟨2023, 1, 6⟩ =
      calc_proj_bal ⟨[], [], [⟨⟨2023, 1, 5⟩, 100⟩]⟩ ⟨2023, 1, 1⟩ ⟨2023, 1, 4⟩ +
      contribSum [] ⟨2023, 1, 4⟩ ⟨2023, 1, 6⟩) := by
  decide

/-- C5, amended.  For valid dates, provided no checkpoint date lies strictly
after D1 and at or before D2 (so both projections share their anchor), and
all amounts in the store are whole cents (so per-update rounding is the
identity), the projection to D2 equals the projection to D1 plus the sum of
the signed effects of all contributions on days in `(D1, D2]`. -/
theorem c5_additivity_amended (s : Store) (today d1 d2 : Date)
    (hv : ∀ t ∈ s.transactions, Valid t.t_date)
    (hvc : ∀ cp ∈ s.balance_history, Valid cp.date)
    (ht : Valid today) (hd1 : Valid d1)
    (h12 : toOrd d1 < toOrd d2)
    (hnocp : ∀ cp ∈ s.balance_history,
      ¬(toOrd d1 < toOrd cp.date ∧ toOrd cp.date ≤ toOrd d2))
    (hc : ∀ t ∈ s.transactions, IsCents t.amount)
    (hcc : ∀ cp ∈ s.balance_history, IsCents cp.amount) :
    calc_proj_bal s today d2 =
      calc_proj_bal s today d1 + contribSum s.transactions d1 d2 := by
  have hss := startState_congr s today d1 d2 (le_of_lt h12) hnocp
  have hC2 := calc_proj_closed s today d2 hv hvc ht hc hcc
  have hC1 := calc_proj_closed s today d1 hv hvc ht hc hcc
  rw [hss] at hC2
  have hvc0 : Valid (startState s today d1).2 := startState_valid s today d1 hv hvc ht
  by_cases hcase : toOrd (startState s today d1).2 ≤ toOrd d1
  · -- both windows start at the shared cursor; split the longer sum
    have hf2 : toOrd d2 + 1 - toOrd (startState s today d1).2 =
        (toOrd d1 + 1 - toOrd (startState s today d1).2) + (toOrd d2 - toOrd d1) := by
      omega
    rw [hf2, sum_split] at hC2
    rw [hC2, hC1]
    unfold contribSum
    have hsum : ∀ k ∈ Finset.range (toOrd d2 - toOrd d1),
        daySum s.transactions
          (advanceDays ((toOrd d1 + 1 - toOrd (startState s today d1).2) + k)
            (startState s today d1).2) =
        daySum s.transactions (advanceDays (k + 1) d1) := by
      intro k hk
      congr 1
      apply toOrd_inj _ _ (advanceDays_valid _ _ hvc0) (advanceDays_valid _ _ hd1)
      rw [toOrd_advanceDays _ _ hvc0, toOrd_advanceDays _ _ hd1]
      omega
    rw [Finset.sum_congr rfl hsum]
    ring
  · -- the cursor starts after D1, which forces the no-checkpoint branch
    have hanchor : get_nearest_checkpoint s.balance_history d2 = none := by
      cases hg : get_nearest_checkpoint s.balance_history d2 with
      | none => rfl
      | some cp =>
        exfalso
        obtain ⟨hmem, hle⟩ := get_nearest_mem_and_le _ _ _ hg
        have hno := hnocp cp hmem
        have hcpd : (startState s today d2).2 = cp.date := by
          unfold startState
          rw [hg]
        rw [hss] at hcpd
        rw [hcpd] at hcase
        omega
    have hb0 : (startState s today d1).1 = 0 := by
      rw [← hss]
      unfold startState
      rw [hanchor]
    have hc0 : (startState s today d1).2 =
        minDate (s.transactions.map (fun t => t.t_date)) today := by
      rw [← hss]
      unfold startState
      rw [hanchor]
    have hmin : ∀ t ∈ s.transactions,
        toOrd (startState s today d1).2 ≤ toOrd t.t_date := by
      rw [hc0]
      intro t htm
      exact (minDate_le _ _).2 _ (List.mem_map_of_mem _ htm)
    have hf1 : toOrd d1 + 1 - toOrd (startState s today d1).2 = 0 := by omega
    rw [hf1, Finset.range_zero, Finset.sum_empty] at hC1
    unfold contribSum
    by_cases hc2 : toOrd (startState s today d1).2 ≤ toOrd d2
    · have hsplit : toOrd d2 - toOrd d1 =
          (toOrd (startState s today d1).2 - toOrd d1 - 1) +
          (toOrd d2 + 1 - toOrd (startState s today d1).2) := by omega
      rw [hsplit, sum_split]
      have hzero : ∀ k ∈ Finset.range (toOrd (startState s today d1).2 - toOrd d1 - 1),
          daySum s.transactions (advanceDays (k + 1) d1) = 0 := by
        intro k hk
        rw [Finset.mem_range] at hk
        apply daySum_zero_of_lt
        intro t htm
        have h1 := hmin t htm
        rw [toOrd_advanceDays _ _ hd1]
        omega
      rw [Finset.sum_congr rfl hzero, Finset.sum_const_zero]
      have hsum2 : ∀ k ∈ Finset.range (toOrd d2 + 1 - toOrd (startState s today d1).2),
          daySum s.transactions
            (advanceDays ((toOrd (startState s today d1).2 - toOrd d1 - 1) + k + 1) d1) =
          daySum s.transactions (advanceDays k (startState s today d1).2) := by
        intro k hk
        congr 1
        apply toOrd_inj _ _ (advanceDays_valid _ _ hd1) (advanceDays_valid _ _ hvc0)
        rw [toOrd_advanceDays _ _ hd1, toOrd_advanceDays _ _ hvc0]
        omega
      rw [Finset.sum_congr rfl hsum2]
      rw [hC1, hC2, hb0]
      ring
    · have hf2z : toOrd d2 + 1 - toOrd (startState s today d1).2 = 0 := by omega
      rw [hf2z, Finset.range_zero, Finset.sum_empty] at hC2
      have hzero : ∀ k ∈ Finset.range (toOrd d2 - toOrd d1),
          daySum s.transactions (advanceDays (k + 1) d1) = 0 := by
        intro k hk
        rw [Finset.mem_range] at hk
        apply daySum_zero_of_lt
        intro t htm
        have h1 := hmin t htm
        rw [toOrd_advanceDays _ _ hd1]
        omega
      rw [Finset.sum_congr rfl hzero, Finset.sum_const_zero]
      rw [hC1, hC2]
      ring

unseal Rat.add Rat.mul Rat.inv Rat.sub in
/-- Witness for the amended C5 at a concrete store: a checkpoint of 10 on
2023-01-01, one income of 5 on 2023-01-02, and the window (2023-01-01,
2023-01-03]. -/
theorem c5_additivity_amended_witness :
    calc_proj_bal ⟨[⟨5, TType.income, ⟨2023, 1, 2⟩, false, none, "", none⟩], [],
        [⟨⟨2023, 1, 1⟩, 10⟩]⟩ ⟨2023, 1, 1⟩ ⟨2023, 1, 3⟩ =
      calc_proj_bal ⟨[⟨5, TType.income, ⟨2023, 1, 2⟩, false, none, "", none⟩], [],
        [⟨⟨2023, 1, 1⟩, 10⟩]⟩ ⟨2023, 1, 1⟩ ⟨2023, 1, 1⟩ +
      contribSum [⟨5, TType.income, ⟨2023, 1, 2⟩, false, none, "", none⟩]
        ⟨2023, 1, 1⟩ ⟨2023, 1, 3⟩ :=
  c5_additivity_amended _ ⟨2023, 1, 1⟩ ⟨2023, 1, 1⟩ ⟨2023, 1, 3⟩
    (by decide) (by decide) (by decide) (by decide) (by decide) (by decide)
    (by decide) (by decide)

end Tracker
